import Mathlib

/-!
Verification of the Javadoc-To-Markdown parser core (`src/parse/mod.rs`).

The lexer, doc-comment parser, grammar classifier, declaration builder and the
four statement handlers are embedded shallowly below, translated function by
function from the Rust source.  The repository's `grammar` and `model` modules
(token/stream enums, record structs and their trivial setters, keyword sets)
are not part of the given sources; those definitions are modelled from the
specification and from their exact usage inside `parse/mod.rs`, and each such
definition is marked with a doc comment beginning `Modelled from the spec`.
-/

namespace Parse

/-! ## String helpers

Rust string primitives (`split`, `contains`, `trim`, `join`) are embedded as
plain recursive functions over `List Char` / `String` so that every definition
is executable by the kernel. -/

/-- Split a character list at every occurrence of the separator character,
keeping empty segments, exactly like Rust `str::split` with a one-character
pattern: `"a b ".split(" ") = ["a", "b", ""]`. -/
def splitOnCharList (sep : Char) : List Char → List (List Char)
  | [] => [[]]
  | c :: rest =>
    let r := splitOnCharList sep rest
    if c = sep then [] :: r
    else
      match r with
      | h :: t => (c :: h) :: t
      | [] => [[c]]

/-- Rust `s.split(sep)` for a one-character separator, collected to strings. -/
def strSplit (s : String) (sep : Char) : List String :=
  (splitOnCharList sep s.data).map String.mk

/-- Rust `s.contains(c)` for a one-character pattern. -/
def strContainsChar (s : String) (c : Char) : Bool :=
  s.data.contains c

/-- Whether the two given characters occur adjacently in the list; used for
Rust `s.contains("//")`. -/
def hasPair (a b : Char) : List Char → Bool
  | x :: y :: rest => (x == a && y == b) || hasPair a b (y :: rest)
  | _ => false

/-- Rust `s.contains("//")`. -/
def strContainsSlashSlash (s : String) : Bool :=
  hasPair '/' '/' s.data

/-- ASCII whitespace as trimmed by Rust `str::trim` (the sources are ASCII;
the Unicode cases of `char::is_whitespace` are irrelevant here). -/
def isTrimChar (c : Char) : Bool :=
  c == ' ' || c == '\t' || c == '\n' || c == '\r'

/-- Rust `str::trim`: drop whitespace from both ends. -/
def trimString (s : String) : String :=
  String.mk (((s.data.dropWhile isTrimChar).reverse.dropWhile isTrimChar).reverse)

/-- Rust `slice::join(sep)` on strings. -/
def joinWith (sep : String) : List String → String
  | [] => ""
  | [x] => x
  | x :: rest => x ++ sep ++ joinWith sep rest

/-! ## Data model

Modelled from the spec (§3): the `model` module is not among the given
sources; all structs below carry exactly the fields the spec lists and the
setters `parse/mod.rs` calls, each setter being a plain field update. -/

/-- Modelled from the spec: a parameter record `type, name, description`. -/
structure Param where
  var_type : String
  name : String
  desc : String
  deriving Repr, DecidableEq

/-- Modelled from the spec: an exception record `type, description`. -/
structure Exception where
  exception_type : String
  desc : String
  deriving Repr, DecidableEq

/-- Modelled from the spec: an enum field `name, value` with the value stored
as text. -/
structure EnumField where
  name : String
  value : String
  deriving Repr, DecidableEq

/-- Modelled from the spec: a member (field) record. -/
structure Member where
  access : String
  line_number : String
  modifiers : List String
  name : String
  signature : String
  var_type : String
  deriving Repr, DecidableEq

/-- Modelled from the spec: `Member::new()` with every field empty. -/
def Member.new : Member := ⟨"", "", [], "", "", ""⟩

def Member.ch_access (m : Member) (v : String) : Member := {m with access := v}

def Member.ch_line_number (m : Member) (v : String) : Member := {m with line_number := v}

def Member.add_modifier (m : Member) (v : String) : Member := {m with modifiers := m.modifiers ++ [v]}

def Member.ch_name (m : Member) (v : String) : Member := {m with name := v}

def Member.ch_signature (m : Member) (v : String) : Member := {m with signature := v}

def Member.ch_type (m : Member) (v : String) : Member := {m with var_type := v}

/-- Modelled from the spec: a method record. -/
structure Method where
  privacy : String
  description : String
  exceptions : List Exception
  line_num : String
  modifiers : List String
  name : String
  parameters : List Param
  return_type : String
  signature : String
  deriving Repr, DecidableEq

/-- Modelled from the spec: `Method::new()` with every field empty. -/
def Method.new : Method := ⟨"", "", [], "", [], "", [], "", ""⟩

def Method.ch_privacy (m : Method) (v : String) : Method := {m with privacy := v}

def Method.ch_description (m : Method) (v : String) : Method := {m with description := v}

def Method.add_exception (m : Method) (v : Exception) : Method := {m with exceptions := m.exceptions ++ [v]}

def Method.ch_line_num (m : Method) (v : String) : Method := {m with line_num := v}

def Method.add_modifier (m : Method) (v : String) : Method := {m with modifiers := m.modifiers ++ [v]}

def Method.ch_method_name (m : Method) (v : String) : Method := {m with name := v}

def Method.add_param (m : Method) (v : Param) : Method := {m with parameters := m.parameters ++ [v]}

def Method.ch_params (m : Method) (v : List Param) : Method := {m with parameters := v}

def Method.ch_return_type (m : Method) (v : String) : Method := {m with return_type := v}

def Method.ch_signature (m : Method) (v : String) : Method := {m with signature := v}

/-- Modelled from the spec: the documentation record produced by the
doc-comment parser. -/
structure Doc where
  params : List Param
  description : String
  return_desc : String
  author : String
  version : String
  exceptions : List Exception
  deprecated : String
  see : String
  deriving Repr, DecidableEq

/-- Modelled from the spec: `Doc::new()` with every field empty. -/
def Doc.new : Doc := ⟨[], "", "", "", "", [], "", ""⟩

/-- Modelled from the spec: the object-kind tag, fixed when a type keyword is
seen. -/
inductive ObjectState
  | Unset
  | Class
  | Interface
  | Enumeration
  deriving Repr, DecidableEq

/-- Modelled from the spec: the mutable declaration builder. -/
structure Object where
  state : ObjectState
  name : String
  parent : String
  access : String
  license : String
  package_name : String
  signature : String
  description : String
  author : String
  version : String
  modifiers : List String
  interfaces : List String
  dependencies : List String
  exceptions : List Exception
  vars : List Member
  methods : List Method
  fields : List EnumField
  deriving Repr, DecidableEq

/-- Modelled from the spec: `Object::new()` with `Unset` state and every
other field empty. -/
def Object.new : Object :=
  ⟨ObjectState.Unset, "", "", "", "", "", "", "", "", "", [], [], [], [], [], [], []⟩

def Object.ch_state (ob : Object) (v : ObjectState) : Object := {ob with state := v}

def Object.ch_name (ob : Object) (v : String) : Object := {ob with name := v}

def Object.ch_parent (ob : Object) (v : String) : Object := {ob with parent := v}

def Object.ch_access (ob : Object) (v : String) : Object := {ob with access := v}

def Object.ch_license (ob : Object) (v : String) : Object := {ob with license := v}

def Object.ch_package_name (ob : Object) (v : String) : Object := {ob with package_name := v}

def Object.ch_signature (ob : Object) (v : String) : Object := {ob with signature := v}

def Object.ch_description (ob : Object) (v : String) : Object := {ob with description := v}

def Object.ch_author (ob : Object) (v : String) : Object := {ob with author := v}

def Object.ch_version (ob : Object) (v : String) : Object := {ob with version := v}

def Object.add_modifier (ob : Object) (v : String) : Object := {ob with modifiers := ob.modifiers ++ [v]}

def Object.add_interface (ob : Object) (v : String) : Object := {ob with interfaces := ob.interfaces ++ [v]}

def Object.add_dependency (ob : Object) (v : String) : Object := {ob with dependencies := ob.dependencies ++ [v]}

def Object.add_exception (ob : Object) (v : Exception) : Object := {ob with exceptions := ob.exceptions ++ [v]}

def Object.add_variable (ob : Object) (v : Member) : Object := {ob with vars := ob.vars ++ [v]}

def Object.add_method (ob : Object) (v : Method) : Object := {ob with methods := ob.methods ++ [v]}

def Object.ch_fields (ob : Object) (v : List EnumField) : Object := {ob with fields := v}

/-- Modelled from the spec: the immutable class record the finalizer emits. -/
structure Class where
  name : String
  parent : String
  access : String
  license : String
  package_name : String
  signature : String
  description : String
  author : String
  version : String
  modifiers : List String
  interfaces : List String
  dependencies : List String
  exceptions : List Exception
  vars : List Member
  methods : List Method
  fields : List EnumField
  deriving Repr, DecidableEq

/-- Modelled from the spec: `Class::new()` with every field empty. -/
def Class.new : Class :=
  ⟨"", "", "", "", "", "", "", "", "", [], [], [], [], [], [], []⟩

/-- Modelled from the spec: the immutable interface record. -/
structure Interface where
  name : String
  access : String
  signature : String
  description : String
  author : String
  version : String
  modifiers : List String
  dependencies : List String
  methods : List Method
  deriving Repr, DecidableEq

/-- Modelled from the spec: the immutable enumeration record. -/
structure Enumeration where
  name : String
  access : String
  signature : String
  description : String
  author : String
  version : String
  modifiers : List String
  dependencies : List String
  fields : List EnumField
  deriving Repr, DecidableEq

/-- Modelled from the spec: `Object::to_class`, copying the builder fields. -/
def Object.to_class (ob : Object) : Class :=
  ⟨ob.name, ob.parent, ob.access, ob.license, ob.package_name, ob.signature,
   ob.description, ob.author, ob.version, ob.modifiers, ob.interfaces,
   ob.dependencies, ob.exceptions, ob.vars, ob.methods, ob.fields⟩

/-- Modelled from the spec: `Object::to_interface`. -/
def Object.to_interface (ob : Object) : Interface :=
  ⟨ob.name, ob.access, ob.signature, ob.description, ob.author, ob.version,
   ob.modifiers, ob.dependencies, ob.methods⟩

/-- Modelled from the spec: `Object::to_enumeration`. -/
def Object.to_enumeration (ob : Object) : Enumeration :=
  ⟨ob.name, ob.access, ob.signature, ob.description, ob.author, ob.version,
   ob.modifiers, ob.dependencies, ob.fields⟩

/-- Modelled from the spec: the tagged output value of a parse. -/
inductive ObjectType
  | Class (c : Class)
  | Interface (i : Interface)
  | Enumeration (e : Enumeration)
  deriving Repr, DecidableEq

/-! ## Grammar types

Modelled from the spec (§3) and from their exact usage in `parse/mod.rs`. -/

/-- Modelled from the spec: the lexer's token kinds. -/
inductive Token
  | Keyword (s : String)
  | Symbol (s : String)
  | Join
  | ParamStart
  | ParamEnd
  | ExpressionEnd (s : String)
  | LineNumber (s : String)
  | Sign (s : String)
  deriving Repr, DecidableEq

/-- Modelled from the spec: grammar parts of one statement.  The Rust variant
`Type` is spelled `Ty` because `Type` is reserved in Lean. -/
inductive Stream
  | Variable (s : String)
  | Ty (s : String)
  | Object (s : String)
  | Access (s : String)
  | Modifier (s : String)
  | Exception
  | Implement
  | Parent
  | Import
  | Package
  deriving Repr, DecidableEq

/-- Modelled from the spec: tokens routed to the doc-comment parser. -/
inductive JdocToken
  | Keyword (s : String)
  | Symbol (s : String)
  deriving Repr, DecidableEq

/-- Modelled from the spec: the doc-comment parser's current-tag state. -/
inductive JdocState
  | Desc
  | JdocReturn
  | Param
  | Author
  | Code
  | Deprecated
  | DocRoot
  | Exception
  | InheritDoc
  | Link
  | Linkplain
  | Literal
  | See
  | Since
  | SerialData
  | SerialField
  | Value
  | Version
  deriving Repr, DecidableEq

/-- Modelled from the spec: which statement handler the next `ExpressionEnd`
dispatches to. -/
inductive ParseState
  | Class
  | Interface
  | Enum
  | Other
  deriving Repr, DecidableEq

/-- State of parsing a method declaration (`parse/mod.rs`). -/
inductive MethodParseState
  | Exception
  | MethodName
  | ParamName
  | Other
  deriving Repr, DecidableEq

/-- State of parsing an object declaration (`parse/mod.rs`). -/
inductive ObjectParseState
  | Implement
  | Exception
  | Parent
  | ClassName
  | Other
  deriving Repr, DecidableEq

/-! ## Keyword sets -/

/-- Modelled from the spec: the structural keyword set consulted by the lexer
and recognised by the declaration builder (type keywords, structural markers,
access modifiers and non-access modifiers, §4.1/§4.4). -/
def get_keywords : List String :=
  ["class", "interface", "enum", "package", "import", "throws", "extends",
   "implements", "public", "protected", "private", "static", "final",
   "abstract", "synchronized", "volatile"]

/-- The javadoc tag set, exactly the tags `get_doc` dispatches on. -/
def get_jdoc_keywords : List String :=
  ["@return", "@param", "@author", "@code", "@deprecated", "@docRoot",
   "@exception", "@inheritDoc", "@link", "@linkplain", "@literal", "@see",
   "@throws", "@since", "@serialData", "@serialField", "@value", "@version"]

/-- Modelled from the spec: the third, domain-specific annotation keyword set;
nothing in the core consumes its members beyond classifying them as keywords,
and no claim depends on its contents, so it is modelled as empty. -/
def get_spring_keywords : List String := []

/-- The `is_keyword!` macro: linear scan for membership. -/
def is_keyword (w : String) (keys : List String) : Bool :=
  keys.contains w

/-! ## Doc-comment parser (`get_doc`) -/

/-- The mutable locals of `get_doc`, in declaration order. -/
structure GetDocState where
  return_str : String
  desc : String
  parameters : List Param
  author : String
  version : String
  link : String
  deprecated : String
  exceptions : List Exception
  state : JdocState
  word_buf : String
  deriving Repr, DecidableEq

/-- The flush performed by `get_doc` when a keyword token arrives at index
`i ≠ 0`: route the buffered text into the field owned by the current state,
then clear the buffer (`parse/mod.rs` lines 43-87). -/
def jdoc_flush (acc : GetDocState) : GetDocState :=
  let new_desc := acc.word_buf
  let acc :=
    match acc.state with
    | JdocState.JdocReturn => {acc with return_str := new_desc}
    | JdocState.Param =>
      let word_parts := strSplit new_desc ' '
      if word_parts.length > 1 then
        {acc with parameters := acc.parameters ++
          [Param.mk "" (word_parts.headD "") (joinWith " " (word_parts.drop 1))]}
      else if word_parts.length = 1 then
        {acc with parameters := acc.parameters ++ [Param.mk "" (word_parts.headD "") ""]}
      else acc
    | JdocState.Author => {acc with author := new_desc}
    | JdocState.Deprecated => {acc with deprecated := new_desc}
    | JdocState.Since => {acc with version := new_desc}
    | JdocState.Link => {acc with link := new_desc}
    | JdocState.See => {acc with link := new_desc}
    | JdocState.Exception =>
      let word_parts := strSplit new_desc ' '
      if acc.exceptions.length > 0 then
        {acc with exceptions := acc.exceptions ++
          [Exception.mk (word_parts.headD "") (joinWith "" (word_parts.drop 1))]}
      else acc
    | JdocState.Version => {acc with version := new_desc}
    | JdocState.Desc => {acc with desc := new_desc}
    | _ => acc
  {acc with word_buf := ""}

/-- The tag-to-state table of `get_doc` (`parse/mod.rs` lines 89-109);
unsupported tags leave the state unchanged. -/
def jdoc_new_state (key : String) (st : JdocState) : JdocState :=
  if key = "@return" then JdocState.JdocReturn
  else if key = "@param" then JdocState.Param
  else if key = "@author" then JdocState.Author
  else if key = "@code" then JdocState.Code
  else if key = "@deprecated" then JdocState.Deprecated
  else if key = "@docRoot" then JdocState.DocRoot
  else if key = "@exception" then JdocState.Exception
  else if key = "@inheritDoc" then JdocState.InheritDoc
  else if key = "@link" then JdocState.Link
  else if key = "@linkplain" then JdocState.Linkplain
  else if key = "@literal" then JdocState.Literal
  else if key = "@see" then JdocState.See
  else if key = "@throws" then JdocState.Exception
  else if key = "@since" then JdocState.Since
  else if key = "@serialData" then JdocState.SerialData
  else if key = "@serialField" then JdocState.SerialField
  else if key = "@value" then JdocState.Value
  else if key = "@version" then JdocState.Version
  else st

/-- The token loop of `get_doc`; `first` is true exactly at index 0. -/
def get_doc_loop : List JdocToken → Bool → GetDocState → GetDocState
  | [], _, acc => acc
  | JdocToken.Keyword key :: rest, first, acc =>
    let acc := if first then acc else jdoc_flush acc
    get_doc_loop rest false {acc with state := jdoc_new_state key acc.state}
  | JdocToken.Symbol key :: rest, _, acc =>
    get_doc_loop rest false
      (if key ≠ "*" then {acc with word_buf := acc.word_buf ++ key ++ " "} else acc)

/-- `get_doc`: parse one javadoc comment's token stream into a `Doc`
(`parse/mod.rs` lines 28-129). -/
def get_doc (tokens : List JdocToken) : Doc :=
  let acc := get_doc_loop tokens true ⟨"", "", [], "", "", "", "", [], JdocState.Desc, ""⟩
  ⟨acc.parameters, acc.desc, acc.return_str, acc.author, acc.version,
   acc.exceptions, acc.deprecated, acc.link⟩

/-! ## Statement handlers -/

/-- One step of `get_object`'s walk over the grammar parts
(`parse/mod.rs` lines 155-181). -/
def get_object_step (acc : Object × ObjectParseState) (part : Stream) :
    Object × ObjectParseState :=
  match part with
  | Stream.Variable var =>
    let ob :=
      match acc.2 with
      | ObjectParseState.Implement => acc.1.add_interface var
      | ObjectParseState.Exception => acc.1.add_exception (Exception.mk var "")
      | ObjectParseState.ClassName => acc.1.ch_name var
      | ObjectParseState.Parent => acc.1.ch_parent var
      | ObjectParseState.Other => acc.1
    (ob, acc.2)
  | Stream.Object _ => (acc.1, ObjectParseState.ClassName)
  | Stream.Access key => (acc.1.ch_access key, acc.2)
  | Stream.Modifier key => (acc.1.add_modifier key, acc.2)
  | Stream.Exception => (acc.1, ObjectParseState.Exception)
  | Stream.Implement => (acc.1, ObjectParseState.Implement)
  | Stream.Parent => (acc.1, ObjectParseState.Parent)
  | _ => (acc.1, acc.2)

/-- `get_object`: the object-header handler (`parse/mod.rs` lines 152-187). -/
def get_object (gram_parts : List Stream) (java_doc : Doc) (sign : String)
    (ob : Object) : Object :=
  let acc := gram_parts.foldl get_object_step (ob, ObjectParseState.Other)
  (((acc.1.ch_signature sign).ch_description java_doc.description).ch_author
      java_doc.author).ch_version java_doc.version

/-- The mutable locals of `get_method`'s walk. -/
structure GetMethodState where
  method : Method
  param_type : String
  parse_state : MethodParseState
  deriving Repr, DecidableEq

/-- One step of `get_method`'s walk over the grammar parts
(`parse/mod.rs` lines 210-252). -/
def get_method_step (java_doc : Doc) (st : GetMethodState) (part : Stream) :
    GetMethodState :=
  match part with
  | Stream.Variable var =>
    let st :=
      match st.parse_state with
      | MethodParseState.Exception =>
        if java_doc.exceptions.length > 0 then
          let e := Exception.mk var (java_doc.exceptions.headD (Exception.mk "" "")).desc
          {st with method := st.method.add_exception e}
        else st
      | MethodParseState.MethodName => {st with method := st.method.ch_method_name var}
      | MethodParseState.ParamName =>
        {st with method := st.method.add_param (Param.mk st.param_type var ""),
                 param_type := ""}
      | MethodParseState.Other => st
    if st.method.name = "" then {st with method := st.method.ch_return_type var} else st
  | Stream.Ty key =>
    if st.method.return_type = "" then
      {st with method := st.method.ch_return_type key,
               parse_state := MethodParseState.MethodName}
    else
      {st with param_type := key, parse_state := MethodParseState.ParamName}
  | Stream.Access key => {st with method := st.method.ch_privacy key}
  | Stream.Modifier key => {st with method := st.method.add_modifier key}
  | Stream.Exception => {st with parse_state := MethodParseState.Exception}
  | _ => st

/-- The walk of `get_method` over the grammar parts, before the line/signature
stamp and doc-comment overrides. -/
def get_method_walk (gram_parts : List Stream) (java_doc : Doc) : GetMethodState :=
  gram_parts.foldl (get_method_step java_doc) ⟨Method.new, "", MethodParseState.Other⟩

/-- `match_params`: the parameter reconciler (`parse/mod.rs` lines 340-366).
For each parsed parameter it scans the documented parameters, pushing one
merged entry per name match, and a description-less entry when nothing
matched. -/
def match_params (method : Method) (jparams : List Param) : List Param :=
  method.parameters.foldl
    (fun new_param param =>
      let inner := jparams.foldl
        (fun st j =>
          if param.name == j.name then
            (st.1 ++ [Param.mk param.var_type param.name j.desc], true)
          else st)
        (new_param, false)
      if inner.2 = false then
        inner.1 ++ [Param.mk param.var_type param.name ""]
      else inner.1)
    []

/-- `get_method`: the method-signature handler (`parse/mod.rs` lines
205-269): walk the grammar parts, stamp line number and signature, apply the
doc-comment return/description overrides, then reconcile parameters. -/
def get_method (gram_parts : List Stream) (java_doc : Doc)
    (line_num signature : String) : Method :=
  let st := get_method_walk gram_parts java_doc
  let method := (st.method.ch_line_num line_num).ch_signature signature
  let method :=
    if java_doc.return_desc ≠ "" then method.ch_return_type java_doc.return_desc
    else method
  let method :=
    if java_doc.description ≠ "" then method.ch_description java_doc.description
    else method
  let n_params := match_params method java_doc.params
  method.ch_params n_params

/-- The walk of `get_var` (`parse/mod.rs` lines 281-309); the boolean of the
result is true exactly when the Rust loop returned early (a name was
extracted or an initializer was met). -/
def get_var_loop : List Stream → Member → Bool → Member × Bool
  | [], member, _ => (member, false)
  | part :: rest, member, member_name =>
    match part with
    | Stream.Variable var =>
      if var = "=" then (member, true)
      else if member_name then (member.ch_name var, true)
      else get_var_loop rest (member.ch_type var) true
    | Stream.Ty key =>
      if strContainsChar key '=' then
        (member.ch_name ((strSplit key '=').headD ""), true)
      else get_var_loop rest (member.ch_type key) true
    | Stream.Access key => get_var_loop rest (member.ch_access key) member_name
    | Stream.Modifier key => get_var_loop rest (member.add_modifier key) member_name
    | _ => get_var_loop rest member member_name

/-- `get_var`: the field-declaration handler (`parse/mod.rs` lines 277-315).
The line number and signature are stamped only when the walk runs to
completion; the early returns inside the loop skip them. -/
def get_var (gram_parts : List Stream) (line_num signature : String) : Member :=
  match get_var_loop gram_parts Member.new false with
  | (member, true) => member
  | (member, false) => (member.ch_line_number line_num).ch_signature signature

/-- `get_enum_fields` (`parse/mod.rs` lines 322-338): each `Variable` part
becomes one `EnumField` whose value is the part's index `i` in the
grammar-part list, rendered as text. -/
def get_enum_fields (gram_parts : List Stream) : List EnumField :=
  gram_parts.enum.foldl
    (fun fields p =>
      match p.2 with
      | Stream.Variable var => fields ++ [EnumField.mk var (toString p.1)]
      | _ => fields)
    []

/-! ## Lexer (`lex_contents`) -/

/-- `push_token` (`parse/mod.rs` lines 381-395): a non-empty word becomes a
`Keyword` when it belongs to any of the three keyword sets, otherwise a
`Symbol`; an empty word emits nothing. -/
def push_token (curr_token : String) (tokens : List Token) (keywords : List String) :
    List Token :=
  if curr_token ≠ "" then
    if is_keyword curr_token keywords then tokens ++ [Token.Keyword curr_token]
    else if is_keyword curr_token get_jdoc_keywords then tokens ++ [Token.Keyword curr_token]
    else if is_keyword curr_token get_spring_keywords then tokens ++ [Token.Keyword curr_token]
    else tokens ++ [Token.Symbol curr_token]
  else tokens

/-- The mutable locals of `lex_contents`, in declaration order.  The brace
depth is an integer because the Rust counter is an `i32` that a stray closing
brace can drive below zero. -/
structure LexState where
  tokens : List Token
  curr_token : String
  block_depth : Int
  line_number : Nat
  curr_line : String
  deriving Repr, DecidableEq

/-- One character step of `lex_contents` (`parse/mod.rs` lines 408-484): the
delimiter dispatch happens first, then the character is appended to the
current raw line. -/
def lexStep (s : LexState) (ch : Char) : LexState :=
  let keywords := get_keywords
  let s :=
    if ch = ' ' ∨ ch = '\t' ∨ ch = '\r' then
      {s with tokens := if s.block_depth < 2 then push_token s.curr_token s.tokens keywords
                        else s.tokens,
              curr_token := ""}
    else if ch = '\n' then
      let toks := if s.block_depth < 2 then push_token s.curr_token s.tokens keywords
                  else s.tokens
      {s with tokens := toks ++ [Token.LineNumber (toString (s.line_number + 1)),
                                 Token.Sign (trimString s.curr_line)],
              line_number := s.line_number + 1, curr_token := "", curr_line := ""}
    else if ch = ',' then
      {s with tokens := if s.block_depth < 2 then
                          push_token s.curr_token s.tokens keywords ++ [Token.Join]
                        else s.tokens,
              curr_token := ""}
    else if ch = ';' then
      {s with tokens := if s.block_depth < 2 then
                          push_token s.curr_token s.tokens keywords ++ [Token.ExpressionEnd ";"]
                        else s.tokens,
              curr_token := ""}
    else if ch = '(' then
      {s with tokens := if s.block_depth < 2 then
                          push_token s.curr_token s.tokens keywords ++ [Token.ParamStart]
                        else s.tokens,
              curr_token := ""}
    else if ch = ')' then
      {s with tokens := if s.block_depth < 2 then
                          push_token s.curr_token s.tokens keywords ++ [Token.ParamEnd]
                        else s.tokens,
              curr_token := ""}
    else if ch = '\x7b' then
      {s with tokens := if s.block_depth < 2 then
                          push_token s.curr_token s.tokens keywords ++ [Token.ExpressionEnd "\x7b"]
                        else s.tokens,
              curr_token := "", block_depth := s.block_depth + 1}
    else if ch = '\x7d' then
      {s with tokens := if s.block_depth < 2 then push_token s.curr_token s.tokens keywords
                        else s.tokens,
              curr_token := "", block_depth := s.block_depth - 1}
    else
      {s with curr_token := if s.block_depth < 2 then s.curr_token.push ch else s.curr_token}
  {s with curr_line := s.curr_line.push ch}

/-- `lex_contents` (`parse/mod.rs` lines 397-487): fold the character stream
through `lexStep`, starting from a first `LineNumber` token. -/
def lex_contents (content : String) : List Token :=
  (content.data.foldl lexStep ⟨[Token.LineNumber "1"], "", 0, 1, ""⟩).tokens

/-! ## Declaration builder (`construct_ast`) -/

/-- The mutable locals of `construct_ast`, in declaration order, except for
the builder-local `method` value of line 530.  The Rust local `annotation` is
spelled `anno` here (the original name trips Lean tooling).  The local
`method` is threaded as a separate component of the fold state (see
`method_local_step` and `astPairStep` below): its only writes are the
`ParamEnd` arm, lines 693-700, and no statement of `construct_ast` ever reads
it. -/
structure AstState where
  anno : Bool
  ignore : Bool
  object : Object
  in_object : Bool
  parse_state : ParseState
  doc : Bool
  comment : Bool
  jdoc : Doc
  symbols : List String
  doc_tokens : List JdocToken
  gram_parts : List Stream
  comment_buf : String
  line_num : String
  signature : String
  deriving Repr, DecidableEq

/-- The initial builder state of `construct_ast`. -/
def initAstState : AstState :=
  ⟨false, false, Object.new, false, ParseState.Other, false, false, Doc.new,
   [], [], [], "", "", ""⟩

/-- The word-group flush of the grammar classifier (`parse/mod.rs` lines
548-556, 678-684, 709-714): one word becomes a `Variable`; two or more words
a `Ty` of all but the last, space-joined, then a `Variable` of the last. -/
def flush_symbols (gram_parts : List Stream) (symbols : List String) : List Stream :=
  if symbols.length = 1 then
    gram_parts ++ [Stream.Variable (symbols.headD "")]
  else if symbols.length > 1 then
    gram_parts ++ [Stream.Ty (joinWith " " symbols.dropLast),
                   Stream.Variable (symbols.getLastD "")]
  else gram_parts

/-- The `Token::Keyword` arm of `construct_ast` (lines 547-614), flattened
into one record update per branch: every branch first flushes the pending
word group into the grammar parts (`gp`), optionally echoes the keyword into
the comment buffer (`cb`, lines 608-610), and clears the word group and the
annotation flag (lines 612-613). -/
def astStepKeyword (s : AstState) (key : String) : AstState :=
  let gp := flush_symbols s.gram_parts s.symbols
  let cb := if s.comment then s.comment_buf ++ key ++ " " else s.comment_buf
  if key = "class" then
    if ¬s.doc ∧ ¬s.comment then
      {s with object := s.object.ch_state ObjectState.Class,
              gram_parts := gp ++ [Stream.Object key], parse_state := ParseState.Class,
              in_object := true, comment_buf := cb, symbols := [], anno := false}
    else
      {s with gram_parts := gp, in_object := true, comment_buf := cb,
              symbols := [], anno := false}
  else if key = "interface" then
    if ¬s.doc ∧ ¬s.comment then
      {s with object := s.object.ch_state ObjectState.Interface,
              gram_parts := gp ++ [Stream.Object key], parse_state := ParseState.Interface,
              in_object := true, comment_buf := cb, symbols := [], anno := false}
    else
      {s with gram_parts := gp, in_object := true, comment_buf := cb,
              symbols := [], anno := false}
  else if key = "enum" then
    if ¬s.doc ∧ ¬s.comment then
      {s with object := s.object.ch_state ObjectState.Enumeration,
              gram_parts := gp ++ [Stream.Object key], parse_state := ParseState.Enum,
              in_object := true, comment_buf := cb, symbols := [], anno := false}
    else
      {s with gram_parts := gp, in_object := true, comment_buf := cb,
              symbols := [], anno := false}
  else if key = "package" then
    {s with object := if s.comment_buf ≠ "" then s.object.ch_license s.comment_buf
                      else s.object,
            gram_parts := gp ++ [Stream.Package], comment_buf := cb,
            symbols := [], anno := false}
  else if key = "throws" then
    {s with gram_parts := gp ++ [Stream.Exception], comment_buf := cb,
            symbols := [], anno := false}
  else if key = "extends" then
    {s with gram_parts := gp ++ [Stream.Parent], comment_buf := cb,
            symbols := [], anno := false}
  else if key = "implements" then
    {s with gram_parts := gp ++ [Stream.Implement], comment_buf := cb,
            symbols := [], anno := false}
  else if key = "import" then
    {s with gram_parts := gp ++ [Stream.Import], comment_buf := cb,
            symbols := [], anno := false}
  else if key = "public" ∨ key = "protected" ∨ key = "private" then
    {s with gram_parts := gp ++ [Stream.Access key], comment_buf := cb,
            symbols := [], anno := false}
  else if key = "static" ∨ key = "final" ∨ key = "abstract" ∨ key = "synchronized" ∨
          key = "volatile" then
    {s with gram_parts := gp ++ [Stream.Modifier key], comment_buf := cb,
            symbols := [], anno := false}
  else if is_keyword key get_jdoc_keywords then
    {s with gram_parts := gp, doc_tokens := s.doc_tokens ++ [JdocToken.Keyword key],
            comment_buf := cb, symbols := [], anno := false}
  else if s.doc then
    {s with gram_parts := gp, doc_tokens := s.doc_tokens ++ [JdocToken.Symbol key],
            comment_buf := cb, symbols := [], anno := false}
  else
    {s with gram_parts := gp, comment_buf := cb, symbols := [], anno := false}

/-- The `Token::Symbol` arm of `construct_ast` (lines 615-659), flattened
into one record update per branch.  The per-branch comment-buffer value is
the trailing echo of lines 652-656, computed with the comment flag the branch
leaves behind; the annotation branch reproduces the Rust `continue`, which
skips the trailing echo and flag reset. -/
def astStepSymbol (s : AstState) (word : String) : AstState :=
  if word = "/**" then
    {s with doc := true,
            comment_buf := if s.comment then s.comment_buf ++ word ++ " "
                           else s.comment_buf,
            anno := false}
  else if word = "*/" then
    if s.doc then
      {s with jdoc := get_doc s.doc_tokens, parse_state := ParseState.Other,
              doc_tokens := [], gram_parts := [], doc := false, comment := false,
              anno := false}
    else {s with doc := false, comment := false, anno := false}
  else if word = "//" then
    {s with comment := true, comment_buf := s.comment_buf ++ word ++ " ", anno := false}
  else if word = "/*" then
    {s with comment := true, comment_buf := "", anno := false}
  else if strContainsSlashSlash word then
    {s with comment := true, comment_buf := s.comment_buf ++ word ++ " ", anno := false}
  else if s.doc then
    {s with doc_tokens := s.doc_tokens ++
              [if is_keyword word get_jdoc_keywords then JdocToken.Keyword word
               else JdocToken.Symbol word],
            comment_buf := if s.comment ∧ ¬(word = "*") then s.comment_buf ++ word ++ " "
                           else s.comment_buf,
            anno := false}
  else if strContainsChar word '@' ∧ ¬s.doc then
    {s with anno := true}
  else if ¬s.comment then
    {s with symbols := s.symbols ++ [word], anno := false}
  else
    {s with comment_buf := if ¬(word = "*") then s.comment_buf ++ word ++ " "
                           else s.comment_buf,
            anno := false}

/-- The semicolon dispatch of the `Token::ExpressionEnd` arm (lines 719-751). -/
def astSemicolonObject (s : AstState) (temp_gram : List Stream) : Object :=
  if ¬s.in_object then
    match temp_gram with
    | Stream.Import :: t :: _ =>
      (match t with
       | Stream.Variable key => s.object.add_dependency key
       | _ => s.object)
    | Stream.Package :: t :: _ =>
      (match t with
       | Stream.Variable key => s.object.ch_package_name key
       | _ => s.object)
    | _ :: _ :: _ => s.object.add_variable (get_var temp_gram s.line_num s.signature)
    | _ => s.object
  else
    match s.object.state with
    | ObjectState.Class => s.object.add_variable (get_var temp_gram s.line_num s.signature)
    | ObjectState.Enumeration => s.object.ch_fields (get_enum_fields temp_gram)
    | _ => s.object.add_method (get_method temp_gram s.jdoc s.line_num s.signature)

/-- The opening-brace dispatch of the `Token::ExpressionEnd` arm (lines
752-759). -/
def astBraceObject (s : AstState) (temp_gram : List Stream) : Object :=
  match s.parse_state with
  | ParseState.Interface => get_object temp_gram s.jdoc s.signature s.object
  | ParseState.Class => get_object temp_gram s.jdoc s.signature s.object
  | ParseState.Enum => get_object temp_gram s.jdoc s.signature s.object
  | ParseState.Other => s.object.add_method (get_method temp_gram s.jdoc s.line_num s.signature)

/-- The `ignore` half of `construct_ast`'s loop (lines 537-544): while
skipping an annotation's argument list, only a `ParamEnd` changes anything. -/
def astStepIgnore (s : AstState) : Token → Except String AstState
  | Token.ParamEnd => Except.ok {s with ignore := false}
  | _ => Except.ok s

/-- The main token dispatch of `construct_ast` (lines 546-776), with the
`Join`, `ParamStart`, `ParamEnd` and `ExpressionEnd` arms flattened into one
record update per branch (the comment-buffer echoes of lines 667-669,
687-689, 702-704 become conditional field values). -/
def astStepMain (s : AstState) : Token → Except String AstState
  | Token.Keyword key => Except.ok (astStepKeyword s key)
  | Token.Symbol word => Except.ok (astStepSymbol s word)
  | Token.Join =>
    Except.ok {s with
      gram_parts := if s.symbols.length > 1 then
          s.gram_parts ++ [Stream.Ty (joinWith " " s.symbols.dropLast),
                           Stream.Variable (s.symbols.getLastD "")]
        else s.gram_parts,
      comment_buf := if s.comment then s.comment_buf ++ "," else s.comment_buf,
      symbols := []}
  | Token.ParamStart =>
    if s.anno then
      Except.ok {s with
        ignore := true, anno := false,
        comment_buf := if s.comment then s.comment_buf ++ "(" else s.comment_buf,
        symbols := []}
    else
      Except.ok {s with
        gram_parts := flush_symbols s.gram_parts s.symbols,
        comment_buf := if s.comment then s.comment_buf ++ "(" else s.comment_buf,
        symbols := []}
  | Token.ParamEnd =>
    Except.ok {s with
      gram_parts := if s.symbols.length = 1 then s.gram_parts
        else if s.symbols.length > 1 then
          s.gram_parts ++ [Stream.Ty (joinWith " " s.symbols.dropLast),
                           Stream.Variable (s.symbols.getLastD "")]
        else s.gram_parts,
      comment_buf := if s.comment then s.comment_buf ++ ")" else s.comment_buf,
      symbols := []}
  | Token.ExpressionEnd e =>
    let temp_gram := flush_symbols s.gram_parts s.symbols
    if e = ";" then
      Except.ok {s with object := astSemicolonObject s temp_gram,
                        parse_state := ParseState.Other, jdoc := Doc.new,
                        gram_parts := [], symbols := []}
    else if e = "\x7b" then
      Except.ok {s with object := astBraceObject s temp_gram,
                        parse_state := ParseState.Other, jdoc := Doc.new,
                        gram_parts := [], symbols := []}
    else if s.comment then
      Except.ok {s with comment := false, parse_state := ParseState.Other,
                        jdoc := Doc.new, gram_parts := [], symbols := []}
    else if ¬s.doc then Except.error "Expression end not allowed"
    else
      Except.ok {s with parse_state := ParseState.Other, jdoc := Doc.new,
                        gram_parts := [], symbols := []}
  | Token.LineNumber num => Except.ok {s with line_num := num}
  | Token.Sign line => Except.ok {s with signature := line}

/-- One token step of `construct_ast` (lines 536-777) on the main state.
The only hard failure, the `Expression end not allowed` consistency panic, is
modelled as `Except.error`. -/
def astStep (s : AstState) (token : Token) : Except String AstState :=
  if s.ignore then astStepIgnore s token else astStepMain s token

/-- The transition of the builder-local `method` value (line 530): its only
write is the `ParamEnd` arm with exactly one pending word (lines 693-696),
which is skipped while `ignore` is set (lines 537-544); no arm reads it. -/
def method_local_step (s : AstState) (m : Method) : Token → Method
  | Token.ParamEnd =>
    if s.ignore then m
    else if s.symbols.length = 1 then m.ch_method_name (s.symbols.headD "")
    else m
  | _ => m

/-- One token step of `construct_ast` on the full local state: the main
state together with the builder-local `method`. -/
def astPairStep (p : AstState × Method) (token : Token) : Except String (AstState × Method) :=
  (astStep p.1 token).map (fun u => (u, method_local_step p.1 p.2 token))

/-- The end-of-stream finalisation of `construct_ast` (lines 779-788):
`Unset` falls back to an (empty) class after a diagnostic. -/
def finalize_object (ob : Object) : ObjectType :=
  match ob.state with
  | ObjectState.Class => ObjectType.Class ob.to_class
  | ObjectState.Interface => ObjectType.Interface ob.to_interface
  | ObjectState.Enumeration => ObjectType.Enumeration ob.to_enumeration
  | ObjectState.Unset => ObjectType.Class ob.to_class

/-- `construct_ast` run from an arbitrary builder state and builder-local
method value; only the accumulated object reaches the finalizer. -/
def construct_ast_from (s : AstState) (m : Method) (tokens : List Token) :
    Except String ObjectType :=
  match tokens.foldlM astPairStep (s, m) with
  | Except.ok p => Except.ok (finalize_object p.1.object)
  | Except.error e => Except.error e

/-- `construct_ast` (`parse/mod.rs` lines 519-789). -/
def construct_ast (tokens : List Token) : Except String ObjectType :=
  construct_ast_from initAstState Method.new tokens

/-- Modelled from the spec at the I/O boundary: `parse_file` (lines
798-810).  `none` stands for a file that cannot be opened (the Rust
`.expect` panic, modelled as `Except.error`); `some none` for a file that
opens but cannot be read as text (the Rust code prints a diagnostic and
returns an empty class); `some (some contents)` for a successful read. -/
def parse_file (file : Option (Option String)) (_lint : Bool) : Except String ObjectType :=
  match file with
  | none => Except.error "Could not open file"
  | some none => Except.ok (ObjectType.Class Class.new)
  | some (some contents) => construct_ast (lex_contents contents)

/-! ## Projection helpers for stating the claims -/

/-- The method list of a parse result, when it is a class or interface. -/
def methodsOf : Except String ObjectType → List Method
  | Except.ok (ObjectType.Class c) => c.methods
  | Except.ok (ObjectType.Interface i) => i.methods
  | _ => []

/-- The enum-field list of a parse result, when it is an enumeration. -/
def enumFieldsOf : Except String ObjectType → List EnumField
  | Except.ok (ObjectType.Enumeration e) => e.fields
  | _ => []

/-- Whether a parse result is a class with empty method, member and
enum-field lists. -/
def isEmptyClassResult : Except String ObjectType → Bool
  | Except.ok (ObjectType.Class c) => c.methods.isEmpty && c.vars.isEmpty && c.fields.isEmpty
  | _ => false

/-! ## Helper lemmas -/

/-- Flushing the doc buffer cannot create the first exception: with an empty
exception list the guard `exceptions.len() > 0` fails in every state. -/
lemma jdoc_flush_exceptions_nil (acc : GetDocState) (h : acc.exceptions = []) :
    (jdoc_flush acc).exceptions = [] := by
  unfold jdoc_flush
  cases hs : acc.state <;> (simp [hs, h]; try (split_ifs <;> simp [h]))

/-- The doc loop preserves emptiness of the exception list. -/
lemma get_doc_loop_exceptions_nil (ts : List JdocToken) :
    ∀ (first : Bool) (acc : GetDocState), acc.exceptions = [] →
      (get_doc_loop ts first acc).exceptions = [] := by
  induction ts with
  | nil => intro first acc h; simpa [get_doc_loop] using h
  | cons t rest ih =>
    intro first acc h
    cases t with
    | Keyword key =>
      simp only [get_doc_loop]
      apply ih
      cases first with
      | true => simpa using h
      | false => simpa using jdoc_flush_exceptions_nil acc h
    | Symbol key =>
      simp only [get_doc_loop]
      apply ih
      split_ifs <;> simpa using h

/-- The walk of `get_var` never touches the line number or the signature. -/
lemma get_var_loop_preserves (gp : List Stream) :
    ∀ (m : Member) (b : Bool),
      (get_var_loop gp m b).1.line_number = m.line_number ∧
      (get_var_loop gp m b).1.signature = m.signature := by
  induction gp with
  | nil => intro m b; simp [get_var_loop]
  | cons part rest ih =>
    intro m b
    cases part with
    | Variable var =>
      by_cases hv : var = "="
      · simp [get_var_loop, hv]
      · by_cases hb : b
        · simp [get_var_loop, hv, hb, Member.ch_name]
        · simpa [get_var_loop, hv, hb, Member.ch_type] using ih (m.ch_type var) true
    | Ty key =>
      by_cases hk : strContainsChar key '=' = true
      · simp [get_var_loop, hk, Member.ch_name]
      · simpa [get_var_loop, hk, Member.ch_type] using ih (m.ch_type key) true
    | Access key => simpa [get_var_loop, Member.ch_access] using ih (m.ch_access key) b
    | Modifier key => simpa [get_var_loop, Member.add_modifier] using ih (m.add_modifier key) b
    | Object o => simpa [get_var_loop] using ih m b
    | Exception => simpa [get_var_loop] using ih m b
    | Implement => simpa [get_var_loop] using ih m b
    | Parent => simpa [get_var_loop] using ih m b
    | Import => simpa [get_var_loop] using ih m b
    | Package => simpa [get_var_loop] using ih m b

/-! ## Claims -/

/-- Claim C9: for every list of javadoc tokens, the `Doc` returned by
`get_doc` has an empty exceptions list — the exception push is guarded by the
list already being non-empty, the list starts empty, so the guard never
fires. -/
theorem claim_C9 (tokens : List JdocToken) : (get_doc tokens).exceptions = [] := by
  unfold get_doc
  exact get_doc_loop_exceptions_nil tokens true _ rfl

/-- Claim C5, counterexample: a comment documenting two exceptions.  The
claim predicts that the first (`A`) is dropped and the second (`B`) is
recorded; in fact the exception list of the resulting `Doc` is empty. -/
theorem claim_C5_counterexample :
    (get_doc [JdocToken.Keyword "@throws", JdocToken.Symbol "A", JdocToken.Symbol "a1",
              JdocToken.Keyword "@throws", JdocToken.Symbol "B", JdocToken.Symbol "b1",
              JdocToken.Keyword "@since", JdocToken.Symbol "x"]).exceptions = [] ∧
    (get_doc [JdocToken.Keyword "@throws", JdocToken.Symbol "A", JdocToken.Symbol "a1",
              JdocToken.Keyword "@throws", JdocToken.Symbol "B", JdocToken.Symbol "b1",
              JdocToken.Keyword "@since", JdocToken.Symbol "x"]).exceptions ≠
      [Exception.mk "B" "b1"] := by
  exact ⟨rfl, by decide⟩

/-- Claim C5 (amended): the `@exception`/`@throws` flush records the split
exception only when at least one exception has already been recorded; since
the list starts empty and only grows under that guard, flushing with an empty
list records nothing, and consequently every documented exception — the first
and all subsequent ones — is dropped: the exception list of the returned
`Doc` is always empty. -/
theorem claim_C5 :
    (∀ acc : GetDocState, acc.state = JdocState.Exception → acc.exceptions = [] →
      jdoc_flush acc = {acc with word_buf := ""}) ∧
    (∀ tokens : List JdocToken, (get_doc tokens).exceptions = []) := by
  constructor
  · intro acc h1 h2
    unfold jdoc_flush
    simp [h1, h2]
  · intro tokens
    unfold get_doc
    exact get_doc_loop_exceptions_nil tokens true _ rfl

/-- Claim C5, witness: flushing an `Exception`-state buffer with no previous
exceptions only clears the buffer. -/
theorem claim_C5_witness :
    jdoc_flush ⟨"", "", [], "", "", "", "", [], JdocState.Exception, "B b1 "⟩ =
      {(⟨"", "", [], "", "", "", "", [], JdocState.Exception, "B b1 "⟩ : GetDocState) with
        word_buf := ""} :=
  claim_C5.1 ⟨"", "", [], "", "", "", "", [], JdocState.Exception, "B b1 "⟩ rfl rfl

/-- Claim C10: whenever `get_var`'s walk returns early — it extracted both a
type and a name, or met an `=` initializer as a lone `Variable` or inside a
`Ty` part — the returned member's line number and signature are the empty
strings; they are stamped only when the walk completes without an early
return. -/
theorem claim_C10 (gram_parts : List Stream) (line_num signature : String) :
    ((get_var_loop gram_parts Member.new false).2 = true →
      (get_var gram_parts line_num signature).line_number = "" ∧
      (get_var gram_parts line_num signature).signature = "") ∧
    ((get_var_loop gram_parts Member.new false).2 = false →
      (get_var gram_parts line_num signature).line_number = line_num ∧
      (get_var gram_parts line_num signature).signature = signature) := by
  have hp := get_var_loop_preserves gram_parts Member.new false
  unfold get_var
  rcases hloop : get_var_loop gram_parts Member.new false with ⟨member, early⟩
  rw [hloop] at hp
  cases early with
  | true =>
    refine ⟨fun _ => ?_, fun h => by simp at h⟩
    simpa [Member.new] using hp
  | false =>
    refine ⟨fun h => by simp at h, fun _ => ?_⟩
    simp [Member.ch_line_number, Member.ch_signature]

/-- Claim C10, witness: the grammar parts of `int x` make the walk return
early and leave line number and signature empty. -/
theorem claim_C10_witness :
    (get_var_loop [Stream.Ty "int", Stream.Variable "x"] Member.new false).2 = true ∧
    (get_var [Stream.Ty "int", Stream.Variable "x"] "7" "int x;").line_number = "" ∧
    (get_var [Stream.Ty "int", Stream.Variable "x"] "7" "int x;").signature = "" :=
  ⟨rfl, (claim_C10 [Stream.Ty "int", Stream.Variable "x"] "7" "int x;").1 rfl⟩

/-- Claim C3: the finalized method's return type is the doc comment's
`@return` text whenever that text is non-empty, overriding the parsed return
type; when it is empty the return type produced by the walk over the grammar
parts is kept. -/
theorem claim_C3 (gram_parts : List Stream) (java_doc : Doc)
    (line_num signature : String) :
    (java_doc.return_desc ≠ "" →
      (get_method gram_parts java_doc line_num signature).return_type =
        java_doc.return_desc) ∧
    (java_doc.return_desc = "" →
      (get_method gram_parts java_doc line_num signature).return_type =
        (get_method_walk gram_parts java_doc).method.return_type) := by
  unfold get_method
  constructor <;> intro h <;>
    simp [h, Method.ch_line_num, Method.ch_signature, Method.ch_return_type,
          Method.ch_description, Method.ch_params] <;>
    split_ifs <;> simp

/-- Claim C3, witness: a doc comment with `@return` text `the sum `
overrides the parsed return type `int`. -/
theorem claim_C3_witness :
    (get_method [Stream.Ty "int", Stream.Variable "add"]
      {Doc.new with return_desc := "the sum "} "2" "public int add()").return_type =
      "the sum " :=
  (claim_C3 [Stream.Ty "int", Stream.Variable "add"]
    {Doc.new with return_desc := "the sum "} "2" "public int add()").1 (by decide)

/-- Claim C7, counterexample: for a file that opens but cannot be read as
text, the claim predicts that the caller receives no `ObjectType` value; in
fact `parse_file` returns a value, an empty class. -/
theorem claim_C7_counterexample :
    parse_file (some none) false = Except.ok (ObjectType.Class Class.new) ∧
    (parse_file (some none) false).isOk = true :=
  ⟨rfl, rfl⟩

/-- Claim C7 (amended): only a file that cannot be opened aborts the parse
with no result; a file that opens but cannot be read as text does not abort —
the caller receives an `ObjectType` holding an empty `Class`.  A successful
read parses the contents. -/
theorem claim_C7 :
    parse_file none false = Except.error "Could not open file" ∧
    parse_file (some none) false = Except.ok (ObjectType.Class Class.new) ∧
    ∀ contents : String,
      parse_file (some (some contents)) false = construct_ast (lex_contents contents) :=
  ⟨rfl, rfl, fun _ => rfl⟩

/-- Characterization of the indexed fold inside `get_enum_fields`. -/
lemma get_enum_fields_foldl (l : List (Nat × Stream)) :
    ∀ acc : List EnumField,
      l.foldl
        (fun fields p =>
          match p.2 with
          | Stream.Variable var => fields ++ [EnumField.mk var (toString p.1)]
          | _ => fields)
        acc
      = acc ++ l.filterMap
          (fun p =>
            match p.2 with
            | Stream.Variable v => some (EnumField.mk v (toString p.1))
            | _ => none) := by
  induction l with
  | nil => intro acc; simp
  | cons p rest ih =>
    intro acc
    rcases p with ⟨i, part⟩
    cases part <;> simp [List.foldl_cons, ih]

/-- Following the spec's words for C4: one `EnumField` per `Variable` grammar
part, valued by position. -/
def enumFieldsSpec (gram_parts : List Stream) : List EnumField :=
  gram_parts.enum.filterMap
    (fun p =>
      match p.2 with
      | Stream.Variable v => some (EnumField.mk v (toString p.1))
      | _ => none)

/-- Claim C4, counterexample: for `enum E` with body `A, B;` the claim
predicts the two fields `A ↦ "0"` and `B ↦ "1"`; in fact only the final
identifier survives (the comma flush drops one-word groups), so the field
list is `[B ↦ "0"]`. -/
theorem claim_C4_counterexample :
    enumFieldsOf (construct_ast (lex_contents "enum E \x7b\nA, B;\n\x7d\n")) =
      [EnumField.mk "B" "0"] ∧
    enumFieldsOf (construct_ast (lex_contents "enum E \x7b\nA, B;\n\x7d\n")) ≠
      [EnumField.mk "A" "0", EnumField.mk "B" "1"] :=
  ⟨rfl, by decide⟩

/-- Claim C4 (amended): `get_enum_fields` yields one `EnumField` per
`Variable` grammar part, whose value is the part's zero-based index in the
grammar-part list, as text.  However, in a comma-separated identifier list
the builder's `Join` transition drops any pending word group of fewer than
two words without emitting a grammar part, so of a body `A, B;` only the
final identifier (flushed by the terminator) reaches the grammar parts, and
the enumeration's field list is `[B ↦ "0"]` rather than one field per
identifier. -/
theorem claim_C4 :
    (∀ gram_parts : List Stream, get_enum_fields gram_parts = enumFieldsSpec gram_parts) ∧
    (∀ s : AstState, s.ignore = false → s.symbols.length ≤ 1 →
      astStep s Token.Join = Except.ok
        {s with symbols := [],
                comment_buf := if s.comment then s.comment_buf ++ "," else s.comment_buf}) ∧
    enumFieldsOf (construct_ast (lex_contents "enum E \x7b\nA, B;\n\x7d\n")) =
      [EnumField.mk "B" "0"] := by
  refine ⟨?_, ?_, rfl⟩
  · intro gram_parts
    unfold get_enum_fields enumFieldsSpec
    simpa using get_enum_fields_foldl gram_parts.enum []
  · intro s h1 h2
    obtain ⟨anno, ign, ob, inob, ps, doc, com, jd, syms, dts, gps, cb, ln, sg⟩ := s
    simp only at h1 h2
    subst h1
    simp only [astStep, astStepMain, Bool.false_eq_true, if_false]
    rw [if_neg (by omega : ¬(1 < syms.length))]

/-- Claim C4, witness: a `Join` token arriving with the single pending word
`A` drops that word: no grammar part is emitted and the state returns to the
initial one. -/
theorem claim_C4_witness :
    astStep {initAstState with symbols := ["A"]} Token.Join = Except.ok initAstState := by
  have h := claim_C4.2.1 {initAstState with symbols := ["A"]} rfl (by decide)
  simpa [initAstState] using h

/-- Claim C2, counterexample: the characters of `stuff` are read at brace
depth 2, yet they are not read only for nesting bookkeeping — they are echoed
into the `Sign` token of their line. -/
theorem claim_C2_counterexample :
    Token.Sign "a \x7b\x7b stuff" ∈ lex_contents "a \x7b\x7b stuff\n" := by
  decide

/-- Claim C2 (amended): characters read at brace depth at least 2 contribute
no grammar part to any record: at such depths the lexer emits only
`LineNumber` and `Sign` tokens (both on a newline), and in the builder those
two token kinds update only the current line number and signature strings —
they never touch the grammar parts or the object under construction.  The
characters are, however, not read solely for depth tracking: they are echoed
into the raw-line `Sign` text, as the counterexample shows. -/
theorem claim_C2 :
    (∀ (s : LexState) (c : Char), 2 ≤ s.block_depth →
      (lexStep s c).tokens = s.tokens ++
        (if c = '\n' then
          [Token.LineNumber (toString (s.line_number + 1)),
           Token.Sign (trimString s.curr_line)]
         else [])) ∧
    (∀ (t : AstState) (n : String),
      astStep t (Token.LineNumber n) =
        Except.ok (if t.ignore then t else {t with line_num := n})) ∧
    (∀ (t : AstState) (l : String),
      astStep t (Token.Sign l) =
        Except.ok (if t.ignore then t else {t with signature := l})) := by
  refine ⟨?_, ?_, ?_⟩
  · intro s c h
    have hlt : ¬(s.block_depth < 2) := by omega
    unfold lexStep
    split_ifs <;> simp_all
  · intro t n
    by_cases hig : t.ignore <;> simp [astStep, astStepIgnore, astStepMain, hig]
  · intro t l
    by_cases hig : t.ignore <;> simp [astStep, astStepIgnore, astStepMain, hig]

/-- Claim C2, witness: at depth 2 an ordinary character emits no token, and a
`LineNumber` token only moves the builder's line cursor. -/
theorem claim_C2_witness :
    (lexStep ⟨[], "", 2, 5, "ab"⟩ 'x').tokens =
      [] ++ (if ('x' = '\n') then
        [Token.LineNumber (toString (5 + 1)), Token.Sign (trimString "ab")] else []) ∧
    astStep initAstState (Token.LineNumber "9") =
      Except.ok (if initAstState.ignore then initAstState
                 else {initAstState with line_num := "9"}) :=
  ⟨claim_C2.1 ⟨[], "", 2, 5, "ab"⟩ 'x' (by decide),
   claim_C2.2.1 initAstState "9"⟩

/-- The first component of the paired fold is the plain `astStep` fold: the
builder-local `method` never feeds back into the main state, and errors
coincide. -/
lemma foldlM_pair_fst (ts : List Token) :
    ∀ (s : AstState) (m : Method),
      (match ts.foldlM astPairStep (s, m), ts.foldlM astStep s with
       | Except.ok p, Except.ok u => p.1 = u
       | Except.error e1, Except.error e2 => e1 = e2
       | _, _ => False) := by
  induction ts with
  | nil => intro s m; simp [List.foldlM, pure, Except.pure]
  | cons t rest ih =>
    intro s m
    rw [List.foldlM_cons, List.foldlM_cons]
    cases h : astStep s t with
    | error e => simp [astPairStep, h, Except.map, bind, Except.bind]
    | ok u =>
      simp only [astPairStep, h, Except.map, bind, Except.bind]
      exact ih u (method_local_step s m t)

/-- Claim C8, counterexample: in `interface I` with member `void foo(x);`
the `ParamEnd` token arrives with the single pending word `x`; the claim
predicts that `x` becomes the emitted method's name, but the emitted method
is named `foo` (taken from the grammar parts by `get_method`), not `x`. -/
theorem claim_C8_counterexample :
    (methodsOf (construct_ast (lex_contents "interface I \x7b\nvoid foo(x);\n\x7d\n"))).map
        Method.name = ["foo"] ∧
    (methodsOf (construct_ast (lex_contents "interface I \x7b\nvoid foo(x);\n\x7d\n"))).map
        Method.name ≠ ["x"] :=
  ⟨rfl, by decide⟩

/-- Claim C8 (amended): on a `ParamEnd` token with exactly one pending word,
that word is assigned as the name of the builder-local `Method` value of
`construct_ast` — but that local is dead: no emitted record ever incorporates
it, and the final parse result is independent of its value.  The method name
of the record emitted for the statement comes solely from `get_method`'s walk
over the grammar parts, so the lone pending word is discarded. -/
theorem claim_C8 :
    (∀ (s : AstState) (m : Method) (w : String), s.ignore = false → s.symbols = [w] →
      astPairStep (s, m) Token.ParamEnd = Except.ok
        ({s with symbols := [],
                 comment_buf := if s.comment then s.comment_buf ++ ")" else s.comment_buf},
         m.ch_method_name w)) ∧
    (∀ (s : AstState) (m1 m2 : Method) (tokens : List Token),
      construct_ast_from s m1 tokens = construct_ast_from s m2 tokens) := by
  constructor
  · intro s m w h1 h2
    obtain ⟨anno, ign, ob, inob, ps, doc, com, jd, syms, dts, gps, cb, ln, sg⟩ := s
    simp only at h1 h2
    subst h1
    subst h2
    simp only [astPairStep, astStep, astStepMain, method_local_step, Except.map,
      Bool.false_eq_true, if_false, List.length_cons, List.length_nil]
    by_cases hc : com <;> simp [hc]
  · intro s m1 m2 tokens
    have h1 := foldlM_pair_fst tokens s m1
    have h2 := foldlM_pair_fst tokens s m2
    unfold construct_ast_from
    cases ha : tokens.foldlM astPairStep (s, m1) with
    | error e1 =>
      cases hb : tokens.foldlM astPairStep (s, m2) with
      | error e2 =>
        cases hc : tokens.foldlM astStep s with
        | error e => rw [ha, hc] at h1; rw [hb, hc] at h2; simp only at h1 h2; simp [h1, h2]
        | ok u => rw [ha, hc] at h1; exact h1.elim
      | ok q =>
        cases hc : tokens.foldlM astStep s with
        | error e => rw [hb, hc] at h2; exact h2.elim
        | ok u => rw [ha, hc] at h1; exact h1.elim
    | ok p =>
      cases hb : tokens.foldlM astPairStep (s, m2) with
      | error e2 =>
        cases hc : tokens.foldlM astStep s with
        | error e => rw [ha, hc] at h1; exact h1.elim
        | ok u => rw [hb, hc] at h2; exact h2.elim
      | ok q =>
        cases hc : tokens.foldlM astStep s with
        | error e => rw [ha, hc] at h1; exact h1.elim
        | ok u =>
          rw [ha, hc] at h1; rw [hb, hc] at h2
          simp only at h1 h2
          simp [h1, h2]

/-- Claim C8, witness: a `ParamEnd` with the lone pending word `x` writes
only the dead builder-local method; the main state just clears the word
group. -/
theorem claim_C8_witness :
    astPairStep ({initAstState with symbols := ["x"]}, Method.new) Token.ParamEnd =
      Except.ok (initAstState, Method.new.ch_method_name "x") := by
  have h := claim_C8.1 {initAstState with symbols := ["x"]} Method.new "x" rfl rfl
  simpa [initAstState] using h

/-- Tokens that leave the builder's object record in its pristine shape: no
statement terminator and no type keyword. -/
def allowedTok : Token → Bool
  | Token.ExpressionEnd _ => false
  | Token.Keyword k => if k = "class" ∨ k = "interface" ∨ k = "enum" then false else true
  | _ => true

/-- Tokens that are not statement terminators. -/
def noExprEndTok : Token → Bool
  | Token.ExpressionEnd _ => false
  | _ => true

/-- Characters that can never produce a statement terminator token. -/
def noBraceSemiChar (c : Char) : Bool :=
  if c = '\x7b' ∨ c = ';' then false else true

/-- A keyword other than a type keyword never touches the object's method,
member or enum-field lists, nor its state tag. -/
lemma astStepKeyword_object (s : AstState) (key : String)
    (h : ¬(key = "class" ∨ key = "interface" ∨ key = "enum")) :
    (astStepKeyword s key).object.methods = s.object.methods ∧
    (astStepKeyword s key).object.vars = s.object.vars ∧
    (astStepKeyword s key).object.fields = s.object.fields ∧
    (astStepKeyword s key).object.state = s.object.state := by
  push_neg at h
  obtain ⟨h1, h2, h3⟩ := h
  simp only [astStepKeyword, if_neg h1, if_neg h2, if_neg h3]
  by_cases h4 : key = "package"
  · simp only [if_pos h4]
    by_cases h5 : s.comment_buf ≠ ""
    · simp only [if_pos h5, Object.ch_license]
      simp
    · simp only [if_neg h5]
      simp
  · simp only [if_neg h4]
    by_cases h5 : key = "throws"
    · simp only [if_pos h5]; simp
    · simp only [if_neg h5]
      by_cases h6 : key = "extends"
      · simp only [if_pos h6]; simp
      · simp only [if_neg h6]
        by_cases h7 : key = "implements"
        · simp only [if_pos h7]; simp
        · simp only [if_neg h7]
          by_cases h8 : key = "import"
          · simp only [if_pos h8]; simp
          · simp only [if_neg h8]
            by_cases h9 : key = "public" ∨ key = "protected" ∨ key = "private"
            · simp only [if_pos h9]; simp
            · simp only [if_neg h9]
              by_cases h10 : key = "static" ∨ key = "final" ∨ key = "abstract" ∨
                  key = "synchronized" ∨ key = "volatile"
              · simp only [if_pos h10]; simp
              · simp only [if_neg h10]
                by_cases h11 : is_keyword key get_jdoc_keywords = true
                · simp only [if_pos h11]; simp
                · simp only [if_neg h11]
                  by_cases h12 : s.doc = true
                  · simp only [if_pos h12]; simp
                  · simp only [if_neg h12]
                    simp

/-- A symbol token never touches the object at all. -/
lemma astStepSymbol_object (s : AstState) (word : String) :
    (astStepSymbol s word).object = s.object := by
  simp only [astStepSymbol]
  split_ifs <;> rfl

/-- A step on an allowed token always succeeds and preserves the object's
method, member and enum-field lists and its state tag. -/
lemma astStep_allowed (s : AstState) (t : Token) (h : allowedTok t = true) :
    ∃ u, astStep s t = Except.ok u ∧
      u.object.methods = s.object.methods ∧ u.object.vars = s.object.vars ∧
      u.object.fields = s.object.fields ∧ u.object.state = s.object.state := by
  by_cases hig : s.ignore = true
  · have hstep : astStep s t = astStepIgnore s t := if_pos hig
    cases t <;> exact ⟨_, hstep, rfl, rfl, rfl, rfl⟩
  · have hstep : astStep s t = astStepMain s t := if_neg hig
    cases t with
    | Keyword key =>
      have hk : ¬(key = "class" ∨ key = "interface" ∨ key = "enum") := by
        intro hcon
        simp [allowedTok, hcon] at h
      obtain ⟨p1, p2, p3, p4⟩ := astStepKeyword_object s key hk
      exact ⟨astStepKeyword s key, hstep, p1, p2, p3, p4⟩
    | Symbol word =>
      have ho := astStepSymbol_object s word
      exact ⟨astStepSymbol s word, hstep, by rw [ho], by rw [ho], by rw [ho], by rw [ho]⟩
    | Join => exact ⟨_, hstep, rfl, rfl, rfl, rfl⟩
    | ParamStart =>
      by_cases han : s.anno = true
      · exact ⟨_, hstep.trans (if_pos han), rfl, rfl, rfl, rfl⟩
      · exact ⟨_, hstep.trans (if_neg han), rfl, rfl, rfl, rfl⟩
    | ParamEnd => exact ⟨_, hstep, rfl, rfl, rfl, rfl⟩
    | ExpressionEnd e => simp [allowedTok] at h
    | LineNumber num => exact ⟨_, hstep, rfl, rfl, rfl, rfl⟩
    | Sign line => exact ⟨_, hstep, rfl, rfl, rfl, rfl⟩

/-- Folding allowed tokens always succeeds and preserves the object's three
record lists and its state tag. -/
lemma foldlM_allowed (ts : List Token) :
    ∀ s : AstState, ts.all allowedTok = true →
      ∃ u, ts.foldlM astStep s = Except.ok u ∧
        u.object.methods = s.object.methods ∧ u.object.vars = s.object.vars ∧
        u.object.fields = s.object.fields ∧ u.object.state = s.object.state := by
  induction ts with
  | nil =>
    intro s _
    exact ⟨s, by simp [List.foldlM, pure, Except.pure], rfl, rfl, rfl, rfl⟩
  | cons t rest ih =>
    intro s h
    simp only [List.all_cons, Bool.and_eq_true] at h
    obtain ⟨u, hu, p1, p2, p3, p4⟩ := astStep_allowed s t h.1
    obtain ⟨v, hv, q1, q2, q3, q4⟩ := ih u h.2
    refine ⟨v, ?_, by rw [q1, p1], by rw [q2, p2], by rw [q3, p3], by rw [q4, p4]⟩
    rw [List.foldlM_cons, hu]
    simpa [bind, Except.bind] using hv

/-- When the plain fold succeeds, the paired fold succeeds with the same
main state. -/
lemma pair_fold_ok (ts : List Token) (s : AstState) (m : Method) (u : AstState)
    (h : ts.foldlM astStep s = Except.ok u) :
    ∃ p, ts.foldlM astPairStep (s, m) = Except.ok p ∧ p.1 = u := by
  have hr := foldlM_pair_fst ts s m
  cases hp : ts.foldlM astPairStep (s, m) with
  | ok p => rw [hp, h] at hr; simp only at hr; exact ⟨p, rfl, hr⟩
  | error e => rw [hp, h] at hr; exact hr.elim

/-- `push_token` only appends keyword or symbol tokens. -/
lemma push_token_noExprEnd (w : String) (toks : List Token) (ks : List String)
    (h : toks.all noExprEndTok = true) :
    (push_token w toks ks).all noExprEndTok = true := by
  unfold push_token
  split_ifs <;> simp_all [noExprEndTok]

/-- A character that is neither `;` nor an opening brace can never add a
statement-terminator token. -/
lemma lexStep_noExprEnd (st : LexState) (c : Char)
    (h : st.tokens.all noExprEndTok = true) (hc : noBraceSemiChar c = true) :
    (lexStep st c).tokens.all noExprEndTok = true := by
  have hc1 : ¬(c = '\x7b') := by intro hcon; simp [noBraceSemiChar, hcon] at hc
  have hc2 : ¬(c = ';') := by intro hcon; simp [noBraceSemiChar, hcon] at hc
  have hpt : ∀ ks, (push_token st.curr_token st.tokens ks).all noExprEndTok = true :=
    fun ks => push_token_noExprEnd st.curr_token st.tokens ks h
  simp only [lexStep]
  by_cases h1 : c = ' ' ∨ c = '\t' ∨ c = '\r'
  · simp only [if_pos h1]
    by_cases hd : st.block_depth < 2
    · simp only [if_pos hd]; exact hpt _
    · simp only [if_neg hd]; exact h
  · simp only [if_neg h1]
    by_cases h2 : c = '\n'
    · simp only [if_pos h2]
      by_cases hd : st.block_depth < 2
      · simp only [if_pos hd]
        simp [List.all_append, noExprEndTok, hpt _]
      · simp only [if_neg hd]
        simp [List.all_append, noExprEndTok, h]
    · simp only [if_neg h2]
      by_cases h3 : c = ','
      · simp only [if_pos h3]
        by_cases hd : st.block_depth < 2
        · simp only [if_pos hd]
          simp [List.all_append, noExprEndTok, hpt _]
        · simp only [if_neg hd]; exact h
      · simp only [if_neg h3, if_neg hc2]
        by_cases h4 : c = '('
        · simp only [if_pos h4]
          by_cases hd : st.block_depth < 2
          · simp only [if_pos hd]
            simp [List.all_append, noExprEndTok, hpt _]
          · simp only [if_neg hd]; exact h
        · simp only [if_neg h4]
          by_cases h5 : c = ')'
          · simp only [if_pos h5]
            by_cases hd : st.block_depth < 2
            · simp only [if_pos hd]
              simp [List.all_append, noExprEndTok, hpt _]
            · simp only [if_neg hd]; exact h
          · simp only [if_neg h5, if_neg hc1]
            by_cases h6 : c = '\x7d'
            · simp only [if_pos h6]
              by_cases hd : st.block_depth < 2
              · simp only [if_pos hd]; exact hpt _
              · simp only [if_neg hd]; exact h
            · simp only [if_neg h6]; exact h

/-- The lexer never emits a statement terminator for a source free of braces
and semicolons. -/
lemma lex_contents_noExprEnd (content : String)
    (h : content.data.all noBraceSemiChar = true) :
    (lex_contents content).all noExprEndTok = true := by
  unfold lex_contents
  have H : ∀ (cs : List Char) (st : LexState), cs.all noBraceSemiChar = true →
      st.tokens.all noExprEndTok = true →
      (cs.foldl lexStep st).tokens.all noExprEndTok = true := by
    intro cs
    induction cs with
    | nil => intro st _ h2; simpa using h2
    | cons c rest ih =>
      intro st h1 h2
      simp only [List.all_cons, Bool.and_eq_true] at h1
      exact ih _ h1.2 (lexStep_noExprEnd st c h2 h1.1)
  exact H content.data _ h (by decide)

/-- Claim C6, counterexample: the source `/* \x7b */` consists solely of
whitespace and a comment and contains no type keyword, yet the brace inside
the comment is lexed as a statement terminator (the lexer is unaware of
comments) and the builder emits one empty method record: the resulting class
is not empty. -/
theorem claim_C6_counterexample :
    isEmptyClassResult (construct_ast (lex_contents "/* \x7b */")) = false ∧
    (methodsOf (construct_ast (lex_contents "/* \x7b */"))).length = 1 :=
  ⟨rfl, rfl⟩

/-- Claim C6 (amended): for every token stream free of statement terminators
(`ExpressionEnd`) and of the `class`/`interface`/`enum` keywords, parsing
returns — never a hard failure — a `Class` whose method, member and
enum-field lists are empty; and every source string free of `\x7b` and `;`
characters lexes to a stream free of statement terminators.  A source
consisting solely of whitespace and comments with no type keyword therefore
parses to an empty class provided no `\x7b` or `;` occurs inside a comment;
a brace inside a comment is treated as a statement terminator (the lexer is
comment-unaware) and produces a spurious empty method record, as the
counterexample shows. -/
theorem claim_C6 :
    (∀ tokens : List Token, tokens.all allowedTok = true →
      isEmptyClassResult (construct_ast tokens) = true) ∧
    (∀ content : String, content.data.all noBraceSemiChar = true →
      (lex_contents content).all noExprEndTok = true) := by
  constructor
  · intro tokens h
    obtain ⟨u, hu, p1, p2, p3, p4⟩ := foldlM_allowed tokens initAstState h
    obtain ⟨p, hp, hfst⟩ := pair_fold_ok tokens initAstState Method.new u hu
    unfold construct_ast construct_ast_from
    rw [hp]
    show isEmptyClassResult (Except.ok (finalize_object p.1.object)) = true
    rw [hfst]
    have hstate : u.object.state = ObjectState.Unset := by
      rw [p4]; rfl
    have hm : u.object.methods = [] := by rw [p1]; rfl
    have hv : u.object.vars = [] := by rw [p2]; rfl
    have hf : u.object.fields = [] := by rw [p3]; rfl
    simp [finalize_object, hstate, isEmptyClassResult, Object.to_class, hm, hv, hf]
  · intro content h
    exact lex_contents_noExprEnd content h

/-- Claim C6, witness: a single line comment lexes to terminator-free tokens
and parses to an empty class. -/
theorem claim_C6_witness :
    (lex_contents "// hi\n").all allowedTok = true ∧
    isEmptyClassResult (construct_ast (lex_contents "// hi\n")) = true ∧
    ("// hi\n".data.all noBraceSemiChar = true) ∧
    (lex_contents "// hi\n").all noExprEndTok = true :=
  ⟨by decide, claim_C6.1 (lex_contents "// hi\n") (by decide), by decide,
   claim_C6.2 "// hi\n" (by decide)⟩

/-- Following the spec's words for C1 (the Parameter Reconciler): each parsed
parameter keeps its name and type and adopts the matching documented
parameter's description, or gets an empty description when no documented
parameter matches; documented parameters matching no parsed parameter are
dropped. -/
def reconcileSpec (params jparams : List Param) : List Param :=
  params.map (fun p =>
    match jparams.find? (fun j => p.name == j.name) with
    | some j => Param.mk p.var_type p.name j.desc
    | none => Param.mk p.var_type p.name "")

/-- The merged entries one parsed parameter contributes in `match_params`:
one per matching documented parameter, or a single description-less entry. -/
def reconcileSegment (p : Param) (jparams : List Param) : List Param :=
  if (jparams.filter (fun j => p.name == j.name)).isEmpty = true then
    [Param.mk p.var_type p.name ""]
  else
    (jparams.filter (fun j => p.name == j.name)).map
      (fun j => Param.mk p.var_type p.name j.desc)

/-- Characterization of the inner scan of `match_params` over the documented
parameters. -/
lemma match_params_inner (p : Param) (jp : List Param) :
    ∀ (acc : List Param) (found : Bool),
      jp.foldl
        (fun st j =>
          if p.name == j.name then
            (st.1 ++ [Param.mk p.var_type p.name j.desc], true)
          else st)
        (acc, found)
      = (acc ++ (jp.filter (fun j => p.name == j.name)).map
            (fun j => Param.mk p.var_type p.name j.desc),
         found || !(jp.filter (fun j => p.name == j.name)).isEmpty) := by
  induction jp with
  | nil => intro acc found; simp
  | cons j rest ih =>
    intro acc found
    by_cases hj : p.name = j.name
    · have hj2 : (p.name == j.name) = true := by simp [hj]
      simp only [List.foldl_cons]
      rw [if_pos hj2, ih]
      simp [List.filter_cons, hj2, List.append_assoc]
    · have hj2 : ¬((p.name == j.name) = true) := by simp [hj]
      have hj3 : (p.name == j.name) = false := by simp [hj]
      simp only [List.foldl_cons]
      rw [if_neg hj2, ih]
      simp [List.filter_cons, hj3]

/-- Characterization of the outer fold of `match_params`. -/
lemma match_params_foldl (jp : List Param) (ps : List Param) :
    ∀ acc : List Param,
      ps.foldl
        (fun new_param param =>
          let inner := jp.foldl
            (fun st j =>
              if param.name == j.name then
                (st.1 ++ [Param.mk param.var_type param.name j.desc], true)
              else st)
            (new_param, false)
          if inner.2 = false then
            inner.1 ++ [Param.mk param.var_type param.name ""]
          else inner.1)
        acc
      = acc ++ (ps.map (fun p => reconcileSegment p jp)).flatten := by
  induction ps with
  | nil => intro acc; simp
  | cons p rest ih =>
    intro acc
    simp only [List.foldl_cons]
    have hinner := match_params_inner p jp acc false
    simp only [hinner, Bool.false_or]
    by_cases hf : (jp.filter (fun j => p.name == j.name)).isEmpty = true
    · have hnil : jp.filter (fun j => p.name == j.name) = [] := List.isEmpty_iff.mp hf
      have hseg : reconcileSegment p jp = [Param.mk p.var_type p.name ""] := by
        rw [reconcileSegment, if_pos hf]
      rw [ih]
      simp [hnil, hseg, List.append_assoc]
    · have hfalse : (jp.filter (fun j => p.name == j.name)).isEmpty = false := by
        simpa using hf
      have hseg : reconcileSegment p jp =
          (jp.filter (fun j => p.name == j.name)).map
            (fun j => Param.mk p.var_type p.name j.desc) := by
        rw [reconcileSegment, if_neg hf]
      rw [ih]
      simp [hfalse, hseg, List.append_assoc]

/-- With pairwise-distinct documented names, the filter of the documented
parameters by one parsed name is the singleton (or empty) result of
`find?`. -/
lemma filter_name_nodup (jp : List Param) (hnd : (jp.map Param.name).Nodup) (p : Param) :
    jp.filter (fun j => p.name == j.name) =
      (match jp.find? (fun j => p.name == j.name) with
       | some j => [j]
       | none => []) := by
  induction jp with
  | nil => simp
  | cons j rest ih =>
    simp only [List.map_cons, List.nodup_cons] at hnd
    by_cases hj : (p.name == j.name) = true
    · have hrest : rest.filter (fun x => p.name == x.name) = [] := by
        rw [List.filter_eq_nil_iff]
        intro x hx hbeq
        apply hnd.1
        have hxp : p.name = x.name := by simpa using hbeq
        have hjp : p.name = j.name := by simpa using hj
        rw [← hjp, hxp]
        exact List.mem_map_of_mem Param.name hx
      simp [List.filter_cons, List.find?_cons, hj, hrest]
    · simp [List.filter_cons, List.find?_cons, hj, ih hnd.2]

/-- Joining singleton segments is a map. -/
lemma flatten_map_singleton (l : List Param) (f : Param → Param) :
    (l.map (fun p => [f p])).flatten = l.map f := by
  induction l with
  | nil => simp
  | cons a t ih => simp [ih]

/-- Claim C1: with pairwise-distinct documented parameter names, the
Parameter Reconciler maps each parsed parameter to itself with the matching
documented description (empty when no match), and every documented parameter
matching no parsed parameter is absent from the result.  (With duplicated
documented names the reconciler would emit one entry per match, which is why
distinctness is assumed.) -/
theorem claim_C1 (m : Method) (jparams : List Param)
    (hnd : (jparams.map Param.name).Nodup) :
    match_params m jparams = reconcileSpec m.parameters jparams ∧
    (∀ j ∈ jparams, (∀ p ∈ m.parameters, p.name ≠ j.name) →
      ∀ r ∈ match_params m jparams, r.name ≠ j.name) := by
  have hchar : match_params m jparams =
      (m.parameters.map (fun p => reconcileSegment p jparams)).flatten := by
    unfold match_params
    simpa using match_params_foldl jparams m.parameters []
  have hseg : ∀ p : Param, reconcileSegment p jparams =
      [(match jparams.find? (fun j => p.name == j.name) with
        | some j => Param.mk p.var_type p.name j.desc
        | none => Param.mk p.var_type p.name "")] := by
    intro p
    rw [reconcileSegment, filter_name_nodup jparams hnd p]
    cases h : jparams.find? (fun j => p.name == j.name) <;> simp
  have hmap : match_params m jparams =
      m.parameters.map (fun p =>
        match jparams.find? (fun j => p.name == j.name) with
        | some j => Param.mk p.var_type p.name j.desc
        | none => Param.mk p.var_type p.name "") := by
    rw [hchar]
    simp only [hseg]
    exact flatten_map_singleton m.parameters _
  constructor
  · rw [hmap]; rfl
  · intro j hj hnone r hr
    rw [hmap] at hr
    obtain ⟨p, hp, hr⟩ := List.mem_map.mp hr
    have hname : r.name = p.name := by
      cases h : jparams.find? (fun x => p.name == x.name) <;> simp [h] at hr <;>
        rw [← hr]
    rw [hname]
    exact hnone p hp

/-- Claim C1, witness: parsed parameters `a`, `b` with documented parameters
`a` (matching) and `c` (dropped). -/
theorem claim_C1_witness :
    (([Param.mk "" "a" "first value", Param.mk "" "c" "dropped"].map Param.name).Nodup) ∧
    match_params
        {Method.new with parameters := [Param.mk "int" "a" "", Param.mk "String" "b" ""]}
        [Param.mk "" "a" "first value", Param.mk "" "c" "dropped"] =
      reconcileSpec [Param.mk "int" "a" "", Param.mk "String" "b" ""]
        [Param.mk "" "a" "first value", Param.mk "" "c" "dropped"] :=
  ⟨by decide,
   (claim_C1 {Method.new with parameters := [Param.mk "int" "a" "", Param.mk "String" "b" ""]}
      [Param.mk "" "a" "first value", Param.mk "" "c" "dropped"] (by decide)).1⟩

end Parse
